import Mathlib

/-!
Shallow embedding of the dp-backend STH ingestion core
(src/routes/sth.ts and src/routes/stats.ts):

- data model: the `sths` table row (structure `Sth`), the store is a
  `List Sth` in insertion order (`findFirst` without ordering = first match);
- identifier normalizer: `normalizeLogId` (padded base64 canonical form);
- ingestion deduplicator: `submit` (validation, normalization, lookup by
  identity triple, insert);
- latest-for-log lookup: `getLatest` / `getLatestResponse`;
- statistics aggregator: histograms (`hourlyBuckets`, `fiveMinBuckets`),
  data range and ingestion rates (`span_hours`, `per_hour`, `per_day`);
- consistency engine: `consistencyFor`;
- response serialization: `serializeSth` with JS `Number(bigint)`
  conversion modelled by `roundToDouble`.

Times (`stored_at`, the captured `now`) are epoch milliseconds as `Int`;
`tree_size` and `timestamp` are the store's unsigned 64-bit integers as `Nat`.
-/

namespace DpBackend

/-- One row of the `sths` table (prisma model / migration `CREATE TABLE sths`). -/
structure Sth where
  id : Nat
  logId : String
  treeSize : Nat
  rootHash : String
  timestamp : Nat
  monitorId : String
  storedAt : Int
deriving Repr, DecidableEq

/-- `"=".repeat n` from JS: a string of `n` pad characters. -/
def padRepeat (n : Nat) : String :=
  String.mk (List.replicate n '=')

/--
`sth.ts` lines 126-129 (and identically 186-189):
```
let normalizedLogId = log_id;
const pad = (4 - (normalizedLogId.length % 4)) % 4;
if (pad) normalizedLogId += "=".repeat(pad);
```
-/
def normalizeLogId (s : String) : String :=
  let pad := (4 - s.length % 4) % 4
  if pad ≠ 0 then s ++ padRepeat pad else s

theorem length_padRepeat (n : Nat) : (padRepeat n).length = n := by
  simp [padRepeat, String.length]

theorem length_normalizeLogId (s : String) :
    (normalizeLogId s).length = s.length + (4 - s.length % 4) % 4 := by
  unfold normalizeLogId
  by_cases h : (4 - s.length % 4) % 4 ≠ 0
  · simp [h, String.length_append, length_padRepeat]
  · simp [h]
    omega

theorem length_normalizeLogId_mod (s : String) :
    (normalizeLogId s).length % 4 = 0 := by
  rw [length_normalizeLogId]
  omega

theorem normalizeLogId_of_mod_eq_zero (t : String) (h : t.length % 4 = 0) :
    normalizeLogId t = t := by
  unfold normalizeLogId
  simp [h]

theorem normalizeLogId_idem (s : String) :
    normalizeLogId (normalizeLogId s) = normalizeLogId s :=
  normalizeLogId_of_mod_eq_zero _ (length_normalizeLogId_mod s)

/--
The JSON request body of `POST /api/sth`. A field is `none` when it is
absent from the body or carries JSON `null` (JS `undefined`/`null`, which
`x == null` and `!x` both match); otherwise `some` of its value.
-/
structure SubmitRequest where
  log_id : Option String
  tree_size : Option Nat
  root_hash : Option String
  timestamp : Option Nat
  monitor_id : Option String
deriving Repr, DecidableEq

/-- JS falsiness of a string-typed field: `!x` is true for absent, `null`
and the empty string. -/
def strFalsy : Option String → Bool
  | none => true
  | some s => s == ""

/--
`sth.ts` line 121:
`!log_id || tree_size == null || !root_hash || timestamp == null || !monitor_id`.
-/
def missingFields (r : SubmitRequest) : Bool :=
  strFalsy r.log_id || r.tree_size == none || strFalsy r.root_hash ||
    r.timestamp == none || strFalsy r.monitor_id

/-- Row matching the dedup identity triple, `sth.ts` lines 132-138
(`prisma.sth.findFirst` with an exact `where`, no ordering: first match in
the store's natural order). -/
def tripleMatch (logId : String) (treeSize : Nat) (rootHash : String)
    (s : Sth) : Bool :=
  s.logId == logId && s.treeSize == treeSize && s.rootHash == rootHash

def findDup (store : List Sth) (logId : String) (treeSize : Nat)
    (rootHash : String) : Option Sth :=
  store.find? (tripleMatch logId treeSize rootHash)

/--
`POST /api/sth` (`sth.ts` lines 119-157), after the transport/auth layer:
validation, normalization, dedup lookup, insert. Returns `none` on a
ValidationError (HTTP 400, nothing stored); otherwise the serialized row,
the new-vs-duplicate flag (HTTP 201 vs 200) and the resulting store.
`now` is the instant the store assigns to `stored_at` on insert;
`nextId` the serial id it assigns.
-/
def submit (store : List Sth) (req : SubmitRequest) (now : Int)
    (nextId : Nat) : Option (Sth × Bool × List Sth) :=
  if missingFields req then none
  else
    match req.log_id, req.tree_size, req.root_hash, req.timestamp,
        req.monitor_id with
    | some rawLogId, some treeSize, some rootHash, some ts, some mid =>
      let normalizedLogId := normalizeLogId rawLogId
      match findDup store normalizedLogId treeSize rootHash with
      | some existing => some (existing, false, store)
      | none =>
        let sth : Sth :=
          { id := nextId, logId := normalizedLogId, treeSize := treeSize,
            rootHash := rootHash, timestamp := ts, monitorId := mid,
            storedAt := now }
        some (sth, true, store ++ [sth])
    | _, _, _, _, _ => none

/-- The store after a submit call: unchanged when the call was rejected or
deduplicated, extended by one row otherwise. -/
def submitStore (store : List Sth) (req : SubmitRequest) (now : Int)
    (nextId : Nat) : List Sth :=
  match submit store req now nextId with
  | none => store
  | some (_, _, store') => store'

/-- A sequence of submit calls executed one at a time (no interleaving). -/
def runSubmits (store : List Sth) : List (SubmitRequest × Int × Nat) → List Sth
  | [] => store
  | (req, now, nextId) :: rest =>
      runSubmits (submitStore store req now nextId) rest

/-- `findFirst` with `orderBy: { storedAt: "desc" }` over a list of rows:
the row with the greatest `stored_at` (first such row on ties). -/
def latestByStoredAt : List Sth → Option Sth
  | [] => none
  | r :: rs =>
    match latestByStoredAt rs with
    | none => some r
    | some b => if r.storedAt < b.storedAt then some b else some r

/--
`GET /api/sth/:logId` (`sth.ts` lines 185-209): normalize the path
identifier, then the most recently stored row for that log;
`none` means HTTP 404 (NotFoundError).
-/
def getLatest (rawLogId : String) (store : List Sth) : Option Sth :=
  let logId := normalizeLogId rawLogId
  latestByStoredAt (store.filter (fun r => r.logId == logId))

/--
JS `Number(bigint)` on a nonnegative big integer: round to the nearest
IEEE-754 double (53-bit significand, ties to even). Exactly the identity
below `2^53`; above, rounds to the nearest multiple of the ulp `2^(log2 n - 52)`.
-/
def roundToDouble (n : Nat) : Nat :=
  if n < 2 ^ 53 then n
  else
    let k := Nat.log2 n - 52
    let q := n / 2 ^ k
    let r := n % 2 ^ k
    let half := 2 ^ (k - 1)
    if half < r || (r == half && q % 2 == 1) then (q + 1) * 2 ^ k
    else q * 2 ^ k

/-- The JSON body `serializeSth` builds (`sth.ts` lines 211-222):
BigInt fields pass through JS `Number(...)`. -/
structure SthJson where
  id : Nat
  log_id : String
  tree_size : Nat
  root_hash : String
  timestamp : Nat
  monitor_id : String
  stored_at : Int
deriving Repr, DecidableEq

def serializeSth (sth : Sth) : SthJson :=
  { id := sth.id, log_id := sth.logId,
    tree_size := roundToDouble sth.treeSize, root_hash := sth.rootHash,
    timestamp := roundToDouble sth.timestamp, monitor_id := sth.monitorId,
    stored_at := sth.storedAt }

/-- The 200 body of `GET /api/sth/:logId` (`sth.ts` lines 203-208). -/
structure LatestJson where
  log_id : String
  tree_size : Nat
  root_hash : String
  timestamp : Nat
deriving Repr, DecidableEq

def getLatestResponse (rawLogId : String) (store : List Sth) :
    Option LatestJson :=
  (getLatest rawLogId store).map fun sth =>
    { log_id := sth.logId, tree_size := roundToDouble sth.treeSize,
      root_hash := sth.rootHash, timestamp := roundToDouble sth.timestamp }

/-- `prisma.sth.count({ where: { storedAt: { gte: lo, lt: hi } } })`. -/
def countInRange (store : List Sth) (lo hi : Int) : Nat :=
  store.countP fun r => decide (lo ≤ r.storedAt ∧ r.storedAt < hi)

def hourMs : Int := 60 * 60 * 1000

def fiveMinMs : Int := 5 * 60 * 1000

/--
`stats.ts` lines 141-153: `for (let i = 23; i >= 0; i--)` push
`(bucketStart, count in [now-(i+1)h, now-i·h))`; the list is built oldest
first, so position `j` holds the iteration `i = 23 - j`.
-/
def hourlyBuckets (now : Int) (store : List Sth) : List (Int × Nat) :=
  (List.range 24).map fun (j : Nat) =>
    (now - ((23 - (j : Int)) + 1) * hourMs,
      countInRange store (now - ((23 - (j : Int)) + 1) * hourMs)
        (now - (23 - (j : Int)) * hourMs))

/-- `stats.ts` lines 155-167: the same loop with 12 five-minute windows. -/
def fiveMinBuckets (now : Int) (store : List Sth) : List (Int × Nat) :=
  (List.range 12).map fun (j : Nat) =>
    (now - ((11 - (j : Int)) + 1) * fiveMinMs,
      countInRange store (now - ((11 - (j : Int)) + 1) * fiveMinMs)
        (now - (11 - (j : Int)) * fiveMinMs))

/-- `findFirst({ orderBy: { storedAt: "asc" } })`: the oldest stored row. -/
def oldestByStoredAt : List Sth → Option Sth
  | [] => none
  | r :: rs =>
    match oldestByStoredAt rs with
    | none => some r
    | some b => if b.storedAt < r.storedAt then some b else some r

/-- JS `Math.round` on a nonnegative rational: floor of `q + 1/2`
(round half up). -/
def jsRound (q : ℚ) : ℤ := ⌊q + 1 / 2⌋

/-- JS `Math.round(x * 100) / 100`: round to 2 decimal places. -/
def round2 (q : ℚ) : ℚ := (jsRound (q * 100) : ℚ) / 100

/--
`stats.ts` lines 225-230: `span_hours` of the data range, the rounded
number of hours between the oldest and newest `stored_at`, `0` when the
store is empty.
-/
def spanHours (store : List Sth) : ℤ :=
  match oldestByStoredAt store, latestByStoredAt store with
  | some oldest, some newest =>
      jsRound (((newest.storedAt - oldest.storedAt : ℤ) : ℚ) / (1000 * 60 * 60))
  | _, _ => 0

/-- `stats.ts` lines 235-237 (`totalSths = prisma.sth.count()` is the
store size). -/
def perHour (store : List Sth) : ℚ :=
  if 0 < store.length ∧ 0 < spanHours store then
    round2 ((store.length : ℚ) / (spanHours store : ℚ))
  else 0

/-- `stats.ts` lines 238-240. -/
def perDay (store : List Sth) : ℚ :=
  if 0 < store.length ∧ 0 < spanHours store then
    round2 ((store.length : ℚ) / ((spanHours store : ℚ) / 24))
  else 0

/-- The distinct `monitor_id`s that reported on a log
(`prisma.sth.groupBy({ by: ["monitorId"], where: { logId } })`,
`stats.ts` lines 173-176), in first-appearance order. -/
def monitorsOf (store : List Sth) (logId : String) : List String :=
  ((store.filter fun r => r.logId == logId).map (·.monitorId)).eraseDups

/-- One entry of `latest_per_monitor` (`stats.ts` lines 184-190):
BigInt fields pass through JS `Number(...)`. -/
structure MonitorLatest where
  monitor_id : String
  tree_size : Nat
  root_hash : String
  timestamp : Nat
deriving Repr, DecidableEq

/-- `stats.ts` lines 178-200: each monitor's single most recent row for
the log, ordered by `stored_at` descending, nulls filtered out. -/
def latestPerMonitor (store : List Sth) (logId : String) :
    List MonitorLatest :=
  (monitorsOf store logId).filterMap fun mid =>
    (latestByStoredAt
        (store.filter fun r => r.logId == logId && r.monitorId == mid)).map
      fun sth =>
        { monitor_id := sth.monitorId,
          tree_size := roundToDouble sth.treeSize,
          root_hash := sth.rootHash,
          timestamp := roundToDouble sth.timestamp }

/--
`stats.ts` lines 202-210: group the latest observations by `tree_size`
into sets of `root_hash` and flag a conflict when some set has more than
one element — equivalently, some two entries share a `tree_size` but
differ in `root_hash`.
-/
def hasConflict (entries : List MonitorLatest) : Bool :=
  entries.any fun a =>
    entries.any fun b =>
      a.tree_size == b.tree_size && a.root_hash != b.root_hash

/-- One entry of the `consistency` array (`stats.ts` lines 212-217). -/
structure ConsistencyReport where
  log_id : String
  monitor_count : Nat
  consistent : Bool
  latest_per_monitor : List MonitorLatest
deriving Repr, DecidableEq

def consistencyFor (store : List Sth) (logId : String) : ConsistencyReport :=
  let valid := latestPerMonitor store logId
  { log_id := logId, monitor_count := valid.length,
    consistent := !hasConflict valid, latest_per_monitor := valid }

/-! ## Lemmas -/

theorem missingFields_iff (req : SubmitRequest) :
    missingFields req = true ↔
      (req.log_id = none ∨ req.log_id = some "" ∨ req.tree_size = none ∨
       req.root_hash = none ∨ req.root_hash = some "" ∨
       req.timestamp = none ∨ req.monitor_id = none ∨
       req.monitor_id = some "") := by
  obtain ⟨l, t, h, ts, m⟩ := req
  cases l <;> cases t <;> cases h <;> cases ts <;> cases m <;>
    simp [missingFields, strFalsy, or_assoc]

theorem submit_ne_none_of_not_missing (store : List Sth) (req : SubmitRequest)
    (now : Int) (nextId : Nat) (hm : missingFields req = false) :
    submit store req now nextId ≠ none := by
  cases hl : req.log_id with
  | none => simp [missingFields, strFalsy, hl] at hm
  | some l =>
  cases ht : req.tree_size with
  | none => simp [missingFields, strFalsy, hl, ht] at hm
  | some t =>
  cases hh : req.root_hash with
  | none => simp [missingFields, strFalsy, hl, ht, hh] at hm
  | some h =>
  cases hts : req.timestamp with
  | none => simp [missingFields, strFalsy, hl, ht, hh, hts] at hm
  | some ts =>
  cases hmo : req.monitor_id with
  | none => simp [missingFields, strFalsy, hl, ht, hh, hts, hmo] at hm
  | some m =>
  unfold submit
  rw [hm]
  simp only [Bool.false_eq_true, if_false, hl, ht, hh, hts, hmo]
  cases hd : findDup store (normalizeLogId l) t h <;> simp [hd]

theorem submit_eq_none_iff (store : List Sth) (req : SubmitRequest)
    (now : Int) (nextId : Nat) :
    submit store req now nextId = none ↔ missingFields req = true := by
  constructor
  · intro hn
    by_contra hm
    simp only [Bool.not_eq_true] at hm
    exact submit_ne_none_of_not_missing store req now nextId hm hn
  · intro hm
    unfold submit
    simp [hm]

/-! ## C3 — normalizer shape, idempotence, canonical length -/

/--
C3: for every input string `x`, `normalizeLogId` returns `x` unchanged
when `x.length % 4 = 0` and otherwise appends exactly `4 - x.length % 4`
pad characters; the result always has length divisible by 4 and
normalization is idempotent.
-/
theorem normalize_pads_and_idempotent (x : String) :
    (x.length % 4 = 0 → normalizeLogId x = x) ∧
    (x.length % 4 ≠ 0 →
      normalizeLogId x = x ++ padRepeat (4 - x.length % 4)) ∧
    (normalizeLogId x).length % 4 = 0 ∧
    normalizeLogId (normalizeLogId x) = normalizeLogId x := by
  refine ⟨fun h => normalizeLogId_of_mod_eq_zero x h, fun h => ?_,
    length_normalizeLogId_mod x, normalizeLogId_idem x⟩
  have hlt : x.length % 4 < 4 := Nat.mod_lt _ (by norm_num)
  have h4 : (4 - x.length % 4) % 4 = 4 - x.length % 4 := by omega
  have hne : (4 - x.length % 4) % 4 ≠ 0 := by omega
  unfold normalizeLogId
  rw [if_pos hne, h4]

theorem normalize_pads_and_idempotent_witness :
    normalizeLogId "AAA" = "AAA" ++ padRepeat (4 - "AAA".length % 4) ∧
    normalizeLogId "AAAA" = "AAAA" :=
  ⟨(normalize_pads_and_idempotent "AAA").2.1 (by decide),
   (normalize_pads_and_idempotent "AAAA").1 (by decide)⟩

/-! ## C4 — validation condition and rejection before any store write -/

/-- A request whose five fields are all present and non-null, but whose
`log_id` is the empty string: JS `!log_id` still rejects it. -/
def reqEmptyLogId : SubmitRequest :=
  { log_id := some "", tree_size := some 1, root_hash := some "hash",
    timestamp := some 1, monitor_id := some "mon" }

/--
C4 counterexample: `submit` rejects `reqEmptyLogId` with a
ValidationError even though none of its five fields is absent or null —
the claimed "if and only if at least one field is absent or null" fails
in the "only if" direction, because `!log_id` / `!root_hash` /
`!monitor_id` in `sth.ts` line 121 are also true for empty strings.
-/
theorem validation_iff_absent_or_null_counterexample :
    submit [] reqEmptyLogId 0 1 = none ∧
    reqEmptyLogId.log_id ≠ none ∧ reqEmptyLogId.tree_size ≠ none ∧
    reqEmptyLogId.root_hash ≠ none ∧ reqEmptyLogId.timestamp ≠ none ∧
    reqEmptyLogId.monitor_id ≠ none := by
  refine ⟨?_, by decide, by decide, by decide, by decide, by decide⟩
  rw [submit_eq_none_iff]
  decide

/--
C4 amended: `submit` fails with a ValidationError if and only if at
least one of the five fields is absent, null, or — for the three
string-typed fields `log_id`, `root_hash`, `monitor_id` — the empty
string; and on such a failure the store is exactly unchanged (the
rejection happens before any store operation).
-/
theorem validation_rejects_falsy_fields (store : List Sth)
    (req : SubmitRequest) (now : Int) (nextId : Nat) :
    (submit store req now nextId = none ↔
      (req.log_id = none ∨ req.log_id = some "" ∨ req.tree_size = none ∨
       req.root_hash = none ∨ req.root_hash = some "" ∨
       req.timestamp = none ∨ req.monitor_id = none ∨
       req.monitor_id = some "")) ∧
    (submit store req now nextId = none →
      submitStore store req now nextId = store) := by
  constructor
  · rw [submit_eq_none_iff]
    exact missingFields_iff req
  · intro h
    unfold submitStore
    rw [h]

theorem validation_rejects_falsy_fields_witness :
    submit [] reqEmptyLogId 0 1 = none ∧
    submitStore [] reqEmptyLogId 0 1 = [] := by
  have h := validation_rejects_falsy_fields [] reqEmptyLogId 0 1
  have h1 : submit [] reqEmptyLogId 0 1 = none :=
    h.1.mpr (Or.inr (Or.inl (by decide)))
  exact ⟨h1, h.2 h1⟩

/-- How `submit` computes once validation has passed: dedup lookup, then
either the existing row (store untouched) or a fresh insert. -/
theorem submit_eq_of_fields (store : List Sth) (l : String) (t : Nat)
    (h : String) (ts : Nat) (m : String) (now : Int) (nextId : Nat)
    (hl : l ≠ "") (hh : h ≠ "") (hm : m ≠ "") :
    submit store ⟨some l, some t, some h, some ts, some m⟩ now nextId =
      match findDup store (normalizeLogId l) t h with
      | some existing => some (existing, false, store)
      | none =>
        some (⟨nextId, normalizeLogId l, t, h, ts, m, now⟩, true,
          store ++ [⟨nextId, normalizeLogId l, t, h, ts, m, now⟩]) := by
  have hmf :
      missingFields ⟨some l, some t, some h, some ts, some m⟩ = false := by
    simp [missingFields, strFalsy, hl, hh, hm]
  simp only [submit, hmf, Bool.false_eq_true, if_false]

/-! ## C1 — dedup returns the first submission's record unchanged -/

/--
C1: with no row for the triple in the store, a first submit of
`(log_id, tree_size, root_hash)` yields `isNew = true` and inserts one
row carrying the first caller's `monitor_id` and `timestamp`; a second
submit of the same triple (any `monitor_id`/`timestamp`, the identifier
possibly differently padded) yields `isNew = false` and returns that
first stored row unchanged, inserting nothing and mutating nothing.
-/
theorem dedup_second_call_returns_first_record (store : List Sth)
    (l1 l2 : String) (sz : Nat) (rh : String) (tm1 tm2 : Nat)
    (m1 m2 : String) (now1 now2 : Int) (id1 id2 : Nat)
    (hl1 : l1 ≠ "") (hrh : rh ≠ "") (hm1 : m1 ≠ "")
    (hl2 : l2 ≠ "") (hm2 : m2 ≠ "")
    (hnorm : normalizeLogId l2 = normalizeLogId l1)
    (hfresh : findDup store (normalizeLogId l1) sz rh = none) :
    ∃ r1 : Sth,
      submit store ⟨some l1, some sz, some rh, some tm1, some m1⟩ now1 id1 =
        some (r1, true, store ++ [r1]) ∧
      r1.monitorId = m1 ∧ r1.timestamp = tm1 ∧ r1.storedAt = now1 ∧
      submit (store ++ [r1]) ⟨some l2, some sz, some rh, some tm2, some m2⟩
          now2 id2 = some (r1, false, store ++ [r1]) := by
  refine ⟨⟨id1, normalizeLogId l1, sz, rh, tm1, m1, now1⟩, ?_, rfl, rfl, rfl, ?_⟩
  · rw [submit_eq_of_fields store l1 sz rh tm1 m1 now1 id1 hl1 hrh hm1, hfresh]
  · rw [submit_eq_of_fields _ l2 sz rh tm2 m2 now2 id2 hl2 hrh hm2, hnorm]
    have hd : findDup (store ++ [⟨id1, normalizeLogId l1, sz, rh, tm1, m1, now1⟩])
        (normalizeLogId l1) sz rh =
        some ⟨id1, normalizeLogId l1, sz, rh, tm1, m1, now1⟩ := by
      unfold findDup at hfresh ⊢
      rw [List.find?_append, hfresh]
      simp [List.find?, tripleMatch]
    rw [hd]

theorem dedup_second_call_returns_first_record_witness :
    submit [] ⟨some "AAA=", some 10, some "h1", some 1000, some "m1"⟩ 5 1 =
      some (⟨1, "AAA=", 10, "h1", 1000, "m1", 5⟩, true,
        [⟨1, "AAA=", 10, "h1", 1000, "m1", 5⟩]) ∧
    submit [⟨1, "AAA=", 10, "h1", 1000, "m1", 5⟩]
        ⟨some "AAA", some 10, some "h1", some 2000, some "m2"⟩ 7 2 =
      some (⟨1, "AAA=", 10, "h1", 1000, "m1", 5⟩, false,
        [⟨1, "AAA=", 10, "h1", 1000, "m1", 5⟩]) := by
  obtain ⟨r1, h1, -, -, -, h2⟩ :=
    dedup_second_call_returns_first_record [] "AAA=" "AAA" 10 "h1" 1000 2000
      "m1" "m2" 5 7 1 2 (by decide) (by decide) (by decide) (by decide)
      (by decide) (by decide) (by decide)
  have hc : submit [] ⟨some "AAA=", some 10, some "h1", some 1000, some "m1"⟩
      5 1 = some (⟨1, "AAA=", 10, "h1", 1000, "m1", 5⟩, true,
        [⟨1, "AAA=", 10, "h1", 1000, "m1", 5⟩]) := by decide
  rw [h1] at hc
  simp only [List.nil_append, Option.some.injEq, Prod.mk.injEq,
    List.cons.injEq, and_true, true_and] at hc
  obtain ⟨hr, -⟩ := hc
  subst hr
  exact ⟨by simpa using h1, by simpa using h2⟩

/-! ## C9 — sequential submits preserve uniqueness of the identity triple -/

/-- No two rows of the store share the `(log_id, tree_size, root_hash)`
identity triple. -/
def noDupTriples (store : List Sth) : Prop :=
  store.Pairwise fun a b =>
    ¬(a.logId = b.logId ∧ a.treeSize = b.treeSize ∧ a.rootHash = b.rootHash)

theorem submitStore_preserves_noDupTriples (store : List Sth)
    (req : SubmitRequest) (now : Int) (nextId : Nat)
    (h : noDupTriples store) :
    noDupTriples (submitStore store req now nextId) := by
  by_cases hmf : missingFields req = true
  · unfold submitStore
    rw [(submit_eq_none_iff store req now nextId).mpr hmf]
    exact h
  · simp only [Bool.not_eq_true] at hmf
    obtain ⟨lo, tso0, ho, tso, mo⟩ := req
    cases lo with
    | none => simp [missingFields, strFalsy] at hmf
    | some l =>
    cases tso0 with
    | none => simp [missingFields, strFalsy] at hmf
    | some t =>
    cases ho with
    | none => simp [missingFields, strFalsy] at hmf
    | some hs =>
    cases tso with
    | none => simp [missingFields, strFalsy] at hmf
    | some ts =>
    cases mo with
    | none => simp [missingFields, strFalsy] at hmf
    | some m =>
    simp only [missingFields, strFalsy, Bool.or_eq_false_iff,
      beq_eq_false_iff_ne, ne_eq] at hmf
    obtain ⟨⟨⟨⟨hl, -⟩, hh⟩, -⟩, hm⟩ := hmf
    unfold submitStore
    rw [submit_eq_of_fields store l t hs ts m now nextId hl hh hm]
    cases hd : findDup store (normalizeLogId l) t hs with
    | some existing => exact h
    | none =>
      have hall : ∀ x ∈ store,
          ¬(x.logId = normalizeLogId l ∧ x.treeSize = t ∧ x.rootHash = hs) := by
        intro x hx
        have := List.find?_eq_none.mp hd x hx
        simpa [tripleMatch] using this
      unfold noDupTriples
      rw [List.pairwise_append]
      exact ⟨h, List.pairwise_singleton _ _,
        fun a ha b hb => by
          rw [List.mem_singleton] at hb
          subst hb
          exact hall a ha⟩

/--
C9: starting from a store with no duplicate identity triples, any
sequence of submit operations executed one at a time leaves the store
free of duplicate `(log_id, tree_size, root_hash)` triples — the
check-then-insert sequence preserves the uniqueness invariant when
submissions do not interleave.
-/
theorem sequential_submits_preserve_unique_triples (store : List Sth)
    (ops : List (SubmitRequest × Int × Nat)) (h : noDupTriples store) :
    noDupTriples (runSubmits store ops) := by
  induction ops generalizing store with
  | nil => exact h
  | cons op rest ih =>
    obtain ⟨req, now, nextId⟩ := op
    exact ih _ (submitStore_preserves_noDupTriples store req now nextId h)

theorem sequential_submits_preserve_unique_triples_witness :
    noDupTriples (runSubmits []
      [(⟨some "AAA", some 10, some "h1", some 1000, some "m1"⟩, 5, 1),
       (⟨some "AAA=", some 10, some "h1", some 2000, some "m2"⟩, 7, 2)]) :=
  sequential_submits_preserve_unique_triples [] _ List.Pairwise.nil

/-! ## C5 — canonical padded form is an invariant of the store -/

theorem padRepeat_append (a b : Nat) :
    padRepeat a ++ padRepeat b = padRepeat (a + b) := by
  show String.mk (List.replicate a '=' ++ List.replicate b '=') = _
  rw [← List.replicate_add]
  rfl

theorem append_padRepeat_zero (s : String) : s ++ padRepeat 0 = s := by
  cases s
  show String.mk _ = _
  simp [padRepeat]

/-- Appending up to the canonical amount of trailing padding does not
change the normalized identifier. -/
theorem normalizeLogId_append_pad (x : String) (k : Nat)
    (hk : k ≤ (4 - x.length % 4) % 4) :
    normalizeLogId (x ++ padRepeat k) = normalizeLogId x := by
  have hlen : (x ++ padRepeat k).length = x.length + k := by
    rw [String.length_append, length_padRepeat]
  by_cases hp : (4 - x.length % 4) % 4 = 0
  · have hk0 : k = 0 := by omega
    subst hk0
    rw [append_padRepeat_zero]
  · have hxr : normalizeLogId x = x ++ padRepeat ((4 - x.length % 4) % 4) := by
      unfold normalizeLogId
      rw [if_pos hp]
    by_cases hkp : k = (4 - x.length % 4) % 4
    · have h0 : (x ++ padRepeat k).length % 4 = 0 := by
        rw [hlen]
        omega
      rw [normalizeLogId_of_mod_eq_zero _ h0, hxr, hkp]
    · have hne : (4 - (x ++ padRepeat k).length % 4) % 4 ≠ 0 := by
        rw [hlen]
        omega
      have harg : (4 - (x ++ padRepeat k).length % 4) % 4 =
          (4 - x.length % 4) % 4 - k := by
        rw [hlen]
        omega
      rw [hxr]
      unfold normalizeLogId
      rw [if_pos hne, harg, String.append_assoc, padRepeat_append]
      congr 2
      omega

/-- Every stored row's `log_id` is in canonical padded form (length a
multiple of 4). -/
def logIdsPadded (store : List Sth) : Prop :=
  ∀ r ∈ store, r.logId.length % 4 = 0

/-- A submit either leaves the store unchanged or appends one row whose
`log_id` is the normalized identifier. -/
theorem submitStore_eq_or (store : List Sth) (req : SubmitRequest)
    (now : Int) (nextId : Nat) :
    submitStore store req now nextId = store ∨
    ∃ (l : String) (t : Nat) (hs : String) (ts : Nat) (m : String),
      submitStore store req now nextId =
        store ++ [⟨nextId, normalizeLogId l, t, hs, ts, m, now⟩] := by
  by_cases hmf : missingFields req = true
  · left
    unfold submitStore
    rw [(submit_eq_none_iff store req now nextId).mpr hmf]
  · simp only [Bool.not_eq_true] at hmf
    obtain ⟨lo, tso0, ho, tso, mo⟩ := req
    cases lo with
    | none => simp [missingFields, strFalsy] at hmf
    | some l =>
    cases tso0 with
    | none => simp [missingFields, strFalsy] at hmf
    | some t =>
    cases ho with
    | none => simp [missingFields, strFalsy] at hmf
    | some hs =>
    cases tso with
    | none => simp [missingFields, strFalsy] at hmf
    | some ts =>
    cases mo with
    | none => simp [missingFields, strFalsy] at hmf
    | some m =>
    simp only [missingFields, strFalsy, Bool.or_eq_false_iff,
      beq_eq_false_iff_ne, ne_eq] at hmf
    obtain ⟨⟨⟨⟨hl, -⟩, hh⟩, -⟩, hm⟩ := hmf
    unfold submitStore
    rw [submit_eq_of_fields store l t hs ts m now nextId hl hh hm]
    cases hd : findDup store (normalizeLogId l) t hs with
    | some existing => exact Or.inl rfl
    | none => exact Or.inr ⟨l, t, hs, ts, m, rfl⟩

theorem submitStore_preserves_logIdsPadded (store : List Sth)
    (req : SubmitRequest) (now : Int) (nextId : Nat)
    (h : logIdsPadded store) :
    logIdsPadded (submitStore store req now nextId) := by
  rcases submitStore_eq_or store req now nextId with heq | ⟨l, t, hs, ts, m, heq⟩
  · rw [heq]
    exact h
  · rw [heq]
    intro r hr
    rcases List.mem_append.mp hr with hr2 | hr2
    · exact h r hr2
    · rw [List.mem_singleton] at hr2
      subst hr2
      exact length_normalizeLogId_mod l

/--
C5: in every store state reachable by sequential submit operations from
a store whose rows are canonically padded, every stored `log_id` has
length divisible by 4; raw identifiers differing only in trailing
padding (up to the canonical block) normalize to the same `log_id`; and
an unpadded submission `"AAA"` is deduplicated against a previously
stored `"AAA="` row.
-/
theorem logid_padding_invariant (store : List Sth)
    (ops : List (SubmitRequest × Int × Nat)) (h : logIdsPadded store) :
    logIdsPadded (runSubmits store ops) ∧
    (∀ x k, k ≤ (4 - x.length % 4) % 4 →
      normalizeLogId (x ++ padRepeat k) = normalizeLogId x) ∧
    submit [⟨1, "AAA=", 10, "h1", 1000, "m1", 0⟩]
        ⟨some "AAA", some 10, some "h1", some 2000, some "m2"⟩ 5 2 =
      some (⟨1, "AAA=", 10, "h1", 1000, "m1", 0⟩, false,
        [⟨1, "AAA=", 10, "h1", 1000, "m1", 0⟩]) := by
  refine ⟨?_, fun x k hk => normalizeLogId_append_pad x k hk, by decide⟩
  induction ops generalizing store with
  | nil => exact h
  | cons op rest ih =>
    obtain ⟨req, now, nextId⟩ := op
    exact ih _ (submitStore_preserves_logIdsPadded store req now nextId h)

theorem logid_padding_invariant_witness :
    logIdsPadded (runSubmits []
      [(⟨some "AAA", some 10, some "h1", some 1000, some "m1"⟩, 5, 1)]) ∧
    normalizeLogId ("AAA" ++ padRepeat 1) = normalizeLogId "AAA" := by
  have h := logid_padding_invariant []
    [(⟨some "AAA", some 10, some "h1", some 1000, some "m1"⟩, 5, 1)]
    (fun r hr => absurd hr (List.not_mem_nil r))
  exact ⟨h.1, h.2.1 "AAA" 1 (by decide)⟩

/-! ## C8 — latest-for-log lookup -/

theorem latestByStoredAt_eq_none_iff (rows : List Sth) :
    latestByStoredAt rows = none ↔ rows = [] := by
  cases rows with
  | nil => simp [latestByStoredAt]
  | cons r rs =>
    simp only [latestByStoredAt]
    cases latestByStoredAt rs with
    | none => simp
    | some b =>
      by_cases hlt : r.storedAt < b.storedAt <;> simp [hlt]

theorem latestByStoredAt_mem {rows : List Sth} {r : Sth}
    (h : latestByStoredAt rows = some r) : r ∈ rows := by
  induction rows with
  | nil => simp [latestByStoredAt] at h
  | cons x xs ih =>
    simp only [latestByStoredAt] at h
    split at h
    · simp only [Option.some.injEq] at h
      subst h
      exact List.mem_cons_self x xs
    · rename_i b hb
      split at h <;> simp only [Option.some.injEq] at h <;> subst h
      · exact List.mem_cons_of_mem x (ih hb)
      · exact List.mem_cons_self x xs

theorem latestByStoredAt_le {rows : List Sth} {r : Sth}
    (h : latestByStoredAt rows = some r) :
    ∀ x ∈ rows, x.storedAt ≤ r.storedAt := by
  induction rows generalizing r with
  | nil => simp [latestByStoredAt] at h
  | cons x xs ih =>
    intro y hy
    simp only [latestByStoredAt] at h
    rcases List.mem_cons.mp hy with hy2 | hy2
    · subst hy2
      split at h
      · simp only [Option.some.injEq] at h
        subst h
        exact le_refl _
      · rename_i b hb
        split at h <;> simp only [Option.some.injEq] at h <;> subst h
        · rename_i hlt
          exact le_of_lt hlt
        · exact le_refl _
    · split at h
      · rename_i hnone
        rw [latestByStoredAt_eq_none_iff] at hnone
        subst hnone
        simp at hy2
      · rename_i b hb
        have hyb : y.storedAt ≤ b.storedAt := ih hb y hy2
        split at h <;> simp only [Option.some.injEq] at h <;> subst h
        · exact hyb
        · rename_i hlt
          exact le_trans hyb (not_lt.mp hlt)

/--
C8: the latest-for-log lookup normalizes the path identifier with the
same normalizer as the submission path, yields NotFound exactly when no
row exists for the normalized `log_id`, and otherwise returns a stored
row for that `log_id` whose `stored_at` is greatest among all rows for
it (ordering by `stored_at`, never by the monitor-claimed `timestamp`).
-/
theorem get_latest_spec (raw : String) (store : List Sth) :
    (getLatest raw store = none ↔
      ∀ r ∈ store, r.logId ≠ normalizeLogId raw) ∧
    ∀ r, getLatest raw store = some r →
      r ∈ store ∧ r.logId = normalizeLogId raw ∧
      ∀ x ∈ store, x.logId = normalizeLogId raw →
        x.storedAt ≤ r.storedAt := by
  constructor
  · unfold getLatest
    rw [latestByStoredAt_eq_none_iff, List.filter_eq_nil_iff]
    simp
  · intro r h
    unfold getLatest at h
    have hmem := latestByStoredAt_mem h
    rw [List.mem_filter] at hmem
    refine ⟨hmem.1, by simpa using hmem.2, fun x hx hxl => ?_⟩
    exact latestByStoredAt_le h x
      (List.mem_filter.mpr ⟨hx, by simpa using hxl⟩)

/-! ## C10 — BigInt-to-number serialization is exact below 2^53 -/

/--
C10: for a stored row whose `tree_size` and `timestamp` are both below
`2^53`, the submit response (`serializeSth`) and the latest-for-log
response report them exactly: the `Number(bigint)` conversion is exact
in that range.
-/
theorem serialization_exact (sth : Sth) (h1 : sth.treeSize < 2 ^ 53)
    (h2 : sth.timestamp < 2 ^ 53) :
    (serializeSth sth).tree_size = sth.treeSize ∧
    (serializeSth sth).timestamp = sth.timestamp ∧
    ∀ raw store, getLatest raw store = some sth →
      getLatestResponse raw store =
        some ⟨sth.logId, sth.treeSize, sth.rootHash, sth.timestamp⟩ := by
  have hr1 : roundToDouble sth.treeSize = sth.treeSize := by
    unfold roundToDouble
    rw [if_pos h1]
  have hr2 : roundToDouble sth.timestamp = sth.timestamp := by
    unfold roundToDouble
    rw [if_pos h2]
  refine ⟨?_, ?_, ?_⟩
  · simp [serializeSth, hr1]
  · simp [serializeSth, hr2]
  · intro raw store h
    simp [getLatestResponse, h, hr1, hr2]

theorem serialization_exact_witness :
    (serializeSth ⟨1, "AAA=", 10, "h1", 1000, "m1", 3⟩).tree_size = 10 ∧
    (serializeSth ⟨1, "AAA=", 10, "h1", 1000, "m1", 3⟩).timestamp = 1000 ∧
    getLatestResponse "AAA" [⟨1, "AAA=", 10, "h1", 1000, "m1", 3⟩] =
      some ⟨"AAA=", 10, "h1", 1000⟩ := by
  have h := serialization_exact ⟨1, "AAA=", 10, "h1", 1000, "m1", 3⟩
    (by norm_num) (by norm_num)
  exact ⟨h.1, h.2.1, h.2.2 "AAA" _ (by decide)⟩

/-! ## C2 — cross-monitor consistency -/

/--
C2: a log is flagged inconsistent exactly when two of the per-monitor
latest observations share a `tree_size` but differ in `root_hash`; a log
with zero or one reporting monitor is always consistent; concretely,
latest observations `(100, "h1")` from monitor A and `(100, "h2")` from
monitor B make the log inconsistent, while `(100, "h1")` and
`(200, "h3")` leave it consistent.
-/
theorem consistency_flags_split_world (store : List Sth) (logId : String) :
    ((consistencyFor store logId).consistent = false ↔
      ∃ a ∈ latestPerMonitor store logId,
        ∃ b ∈ latestPerMonitor store logId,
          a.tree_size = b.tree_size ∧ a.root_hash ≠ b.root_hash) ∧
    ((monitorsOf store logId).length ≤ 1 →
      (consistencyFor store logId).consistent = true) ∧
    (consistencyFor
        [⟨1, "LLLL", 100, "h1", 1, "A", 10⟩,
         ⟨2, "LLLL", 100, "h2", 2, "B", 20⟩] "LLLL").consistent = false ∧
    (consistencyFor
        [⟨1, "LLLL", 100, "h1", 1, "A", 10⟩,
         ⟨2, "LLLL", 200, "h3", 2, "B", 20⟩] "LLLL").consistent = true := by
  refine ⟨?_, ?_, by decide, by decide⟩
  · simp [consistencyFor, hasConflict, List.any_eq_true, Bool.and_eq_true,
      beq_iff_eq, bne_iff_ne]
  · intro hle
    have hlen : (latestPerMonitor store logId).length ≤ 1 :=
      le_trans (List.length_filterMap_le _ _) hle
    cases hv : latestPerMonitor store logId with
    | nil => simp [consistencyFor, hv, hasConflict]
    | cons a tl =>
      cases tl with
      | nil => simp [consistencyFor, hv, hasConflict]
      | cons b tl2 =>
        rw [hv] at hlen
        simp at hlen

theorem consistency_flags_split_world_witness :
    (consistencyFor
        [⟨1, "LLLL", 100, "h1", 1, "A", 10⟩] "LLLL").consistent = true := by
  have h := (consistency_flags_split_world
    [⟨1, "LLLL", 100, "h1", 1, "A", 10⟩] "LLLL").2.1
  exact h (by decide)

/-! ## C6 — histograms -/

theorem countInRange_split (store : List Sth) (a b c : Int) (hab : a ≤ b)
    (hbc : b ≤ c) :
    countInRange store a c = countInRange store a b + countInRange store b c := by
  induction store with
  | nil => rfl
  | cons r rs ih =>
    unfold countInRange at ih ⊢
    simp only [List.countP_cons]
    have hsplit : (if decide (a ≤ r.storedAt ∧ r.storedAt < c) then 1 else 0) =
        (if decide (a ≤ r.storedAt ∧ r.storedAt < b) then 1 else 0) +
          (if decide (b ≤ r.storedAt ∧ r.storedAt < c) then 1 else 0) := by
      simp only [decide_eq_true_eq]
      split_ifs <;> omega
    omega

theorem countInRange_empty_window (store : List Sth) (a : Int) :
    countInRange store a a = 0 := by
  rw [countInRange, List.countP_eq_zero]
  intro r _
  simp only [decide_eq_true_eq, not_and, not_lt]
  intro h
  exact h

theorem sum_contiguous_windows (store : List Sth) (d : Int) (hd : 0 ≤ d)
    (a : Int) (n : Nat) :
    ((List.range n).map fun (j : Nat) =>
        countInRange store (a + (j : Int) * d) (a + ((j : Int) + 1) * d)).sum =
      countInRange store a (a + (n : Int) * d) := by
  induction n with
  | zero =>
    simp only [List.range_zero, List.map_nil, List.sum_nil, Nat.cast_zero,
      zero_mul, add_zero]
    exact (countInRange_empty_window store a).symm
  | succ n ih =>
    rw [List.range_succ, List.map_append, List.sum_append]
    simp only [List.map_cons, List.map_nil, List.sum_cons, List.sum_nil,
      add_zero]
    rw [ih]
    have h1 : a ≤ a + (n : Int) * d :=
      le_add_of_nonneg_right (mul_nonneg (Int.natCast_nonneg n) hd)
    have h2 : a + (n : Int) * d ≤ a + ((n : Int) + 1) * d := by
      have hx : a + ((n : Int) + 1) * d = a + (n : Int) * d + d := by ring
      rw [hx]
      exact le_add_of_nonneg_right hd
    rw [← countInRange_split store a (a + (n : Int) * d)
      (a + ((n : Int) + 1) * d) h1 h2]
    have hcast : (((n + 1 : Nat)) : Int) = (n : Int) + 1 := by push_cast; ring
    rw [hcast]

/--
C6: the hourly histogram has exactly 24 entries and the 5-minute
histogram exactly 12; listed oldest first, entry `j` of the hourly list
covers the half-open window `[now-(24-j)h, now-(23-j)h)` (so the windows
are contiguous and non-overlapping, with `0` for empty buckets), and the
bucket counts sum to the number of rows whose `stored_at` lies in the
trailing 24 hours; the 5-minute histogram satisfies the same with
5-minute windows over the trailing hour.
-/
theorem histograms_spec (now : Int) (store : List Sth) :
    (hourlyBuckets now store).length = 24 ∧
    (fiveMinBuckets now store).length = 12 ∧
    (∀ j : Nat, j < 24 → (hourlyBuckets now store)[j]? =
      some (now - (24 - (j : Int)) * hourMs,
        countInRange store (now - (24 - (j : Int)) * hourMs)
          (now - (23 - (j : Int)) * hourMs))) ∧
    (∀ j : Nat, j < 12 → (fiveMinBuckets now store)[j]? =
      some (now - (12 - (j : Int)) * fiveMinMs,
        countInRange store (now - (12 - (j : Int)) * fiveMinMs)
          (now - (11 - (j : Int)) * fiveMinMs))) ∧
    ((hourlyBuckets now store).map Prod.snd).sum =
      countInRange store (now - 24 * hourMs) now ∧
    ((fiveMinBuckets now store).map Prod.snd).sum =
      countInRange store (now - hourMs) now := by
  refine ⟨by simp [hourlyBuckets], by simp [fiveMinBuckets], ?_, ?_, ?_, ?_⟩
  · intro j hj
    unfold hourlyBuckets
    rw [List.getElem?_map, List.getElem?_range hj]
    have he : (23 - (j : Int)) + 1 = 24 - (j : Int) := by ring
    simp [he]
  · intro j hj
    unfold fiveMinBuckets
    rw [List.getElem?_map, List.getElem?_range hj]
    have he : (11 - (j : Int)) + 1 = 12 - (j : Int) := by ring
    simp [he]
  · unfold hourlyBuckets
    rw [List.map_map]
    rw [List.map_congr_left (g := fun j : Nat =>
      countInRange store ((now - 24 * hourMs) + (j : Int) * hourMs)
        ((now - 24 * hourMs) + ((j : Int) + 1) * hourMs))
      (fun j _ => by
        simp only [Function.comp_apply]
        have hs : now - ((23 - (j : Int)) + 1) * hourMs =
            (now - 24 * hourMs) + (j : Int) * hourMs := by ring
        have ht : now - (23 - (j : Int)) * hourMs =
            (now - 24 * hourMs) + ((j : Int) + 1) * hourMs := by ring
        rw [hs, ht])]
    rw [sum_contiguous_windows store hourMs (by norm_num [hourMs])
      (now - 24 * hourMs) 24]
    have hc : (now - 24 * hourMs) + ((24 : Nat) : Int) * hourMs = now := by
      push_cast
      ring
    rw [hc]
  · unfold fiveMinBuckets
    rw [List.map_map]
    rw [List.map_congr_left (g := fun j : Nat =>
      countInRange store ((now - 12 * fiveMinMs) + (j : Int) * fiveMinMs)
        ((now - 12 * fiveMinMs) + ((j : Int) + 1) * fiveMinMs))
      (fun j _ => by
        simp only [Function.comp_apply]
        have hs : now - ((11 - (j : Int)) + 1) * fiveMinMs =
            (now - 12 * fiveMinMs) + (j : Int) * fiveMinMs := by ring
        have ht : now - (11 - (j : Int)) * fiveMinMs =
            (now - 12 * fiveMinMs) + ((j : Int) + 1) * fiveMinMs := by ring
        rw [hs, ht])]
    rw [sum_contiguous_windows store fiveMinMs (by norm_num [fiveMinMs])
      (now - 12 * fiveMinMs) 12]
    have h12 : now - 12 * fiveMinMs = now - hourMs := by
      norm_num [fiveMinMs, hourMs]
    have hc : (now - 12 * fiveMinMs) + ((12 : Nat) : Int) * fiveMinMs = now := by
      push_cast
      ring
    rw [hc, h12]

/-! ## C7 — data-range span and ingestion rates -/

/--
C7: `span_hours` is the (rounded) number of hours between the single
oldest and single newest `stored_at` of the whole dataset, `0` when
there are no rows; when the span is positive, `per_hour` and `per_day`
are the total row count divided by the span in hours resp. days, rounded
to 2 decimal places; a zero span yields rates of `0` rather than an
error, and with zero stored rows `span_hours`, `per_hour` and `per_day`
are all `0`.
-/
theorem rates_spec (store : List Sth) :
    (store = [] →
      spanHours store = 0 ∧ perHour store = 0 ∧ perDay store = 0) ∧
    (spanHours store = 0 → perHour store = 0 ∧ perDay store = 0) ∧
    (∀ o nw, oldestByStoredAt store = some o →
      latestByStoredAt store = some nw →
      spanHours store =
        jsRound (((nw.storedAt - o.storedAt : ℤ) : ℚ) / (1000 * 60 * 60))) ∧
    (0 < spanHours store →
      0 < store.length ∧
      perHour store = round2 ((store.length : ℚ) / (spanHours store : ℚ)) ∧
      perDay store =
        round2 ((store.length : ℚ) / ((spanHours store : ℚ) / 24))) := by
  refine ⟨?_, ?_, ?_, ?_⟩
  · intro h
    subst h
    refine ⟨rfl, ?_, ?_⟩ <;> simp [perHour, perDay]
  · intro h
    constructor <;> simp [perHour, perDay, h]
  · intro o nw ho hn
    unfold spanHours
    rw [ho, hn]
  · intro hspan
    have hne : store ≠ [] := by
      intro h0
      rw [h0] at hspan
      simp [spanHours, oldestByStoredAt, latestByStoredAt] at hspan
    have hlen : 0 < store.length := List.length_pos.mpr hne
    refine ⟨hlen, ?_, ?_⟩
    · unfold perHour
      rw [if_pos ⟨hlen, hspan⟩]
    · unfold perDay
      rw [if_pos ⟨hlen, hspan⟩]

theorem rates_spec_witness :
    spanHours [] = 0 ∧ perHour [] = 0 ∧ perDay [] = 0 ∧
    spanHours [⟨1, "AAAA", 1, "h", 0, "m", 0⟩,
      ⟨2, "AAAA", 2, "h", 0, "m", 7200000⟩] = 2 ∧
    perHour [⟨1, "AAAA", 1, "h", 0, "m", 0⟩,
      ⟨2, "AAAA", 2, "h", 0, "m", 7200000⟩] = 1 ∧
    perDay [⟨1, "AAAA", 1, "h", 0, "m", 0⟩,
      ⟨2, "AAAA", 2, "h", 0, "m", 7200000⟩] = 24 := by
  have hempty := (rates_spec []).1 rfl
  have hs : spanHours [⟨1, "AAAA", 1, "h", 0, "m", 0⟩,
      ⟨2, "AAAA", 2, "h", 0, "m", 7200000⟩] = 2 := by
    have h3 := (rates_spec [⟨1, "AAAA", 1, "h", 0, "m", 0⟩,
        ⟨2, "AAAA", 2, "h", 0, "m", 7200000⟩]).2.2.1
      ⟨1, "AAAA", 1, "h", 0, "m", 0⟩
      ⟨2, "AAAA", 2, "h", 0, "m", 7200000⟩ (by decide) (by decide)
    rw [h3]
    norm_num [jsRound]
  have h4 := (rates_spec [⟨1, "AAAA", 1, "h", 0, "m", 0⟩,
      ⟨2, "AAAA", 2, "h", 0, "m", 7200000⟩]).2.2.2 (by rw [hs]; norm_num)
  obtain ⟨-, hph, hpd⟩ := h4
  rw [hs] at hph hpd
  refine ⟨hempty.1, hempty.2.1, hempty.2.2, hs, ?_, ?_⟩
  · rw [hph]
    norm_num [round2, jsRound]
  · rw [hpd]
    norm_num [round2, jsRound]

theorem histograms_spec_witness :
    (hourlyBuckets 0 []).length = 24 ∧
    (hourlyBuckets 0 [])[0]? =
      some (0 - (24 - (0 : Int)) * hourMs,
        countInRange [] (0 - (24 - (0 : Int)) * hourMs)
          (0 - (23 - (0 : Int)) * hourMs)) ∧
    ((fiveMinBuckets 0 []).map Prod.snd).sum = countInRange [] (0 - hourMs) 0 := by
  have h := histograms_spec 0 []
  exact ⟨h.1, h.2.2.1 0 (by norm_num), h.2.2.2.2.2⟩

theorem get_latest_spec_witness :
    getLatest "AAA" [] = none ∧
    (⟨1, "AAA=", 10, "h1", 1000, "m1", 3⟩ : Sth).logId =
      normalizeLogId "AAA" ∧
    (⟨1, "AAA=", 10, "h1", 1000, "m1", 3⟩ : Sth) ∈
      ([⟨1, "AAA=", 10, "h1", 1000, "m1", 3⟩] : List Sth) := by
  have h2 := (get_latest_spec "AAA" [⟨1, "AAA=", 10, "h1", 1000, "m1", 3⟩]).2
    ⟨1, "AAA=", 10, "h1", 1000, "m1", 3⟩ (by decide)
  exact ⟨(get_latest_spec "AAA" []).1.mpr
    (fun r hr => absurd hr (List.not_mem_nil r)), h2.2.1, h2.1⟩

end DpBackend
